import Mathlib

/-!
# Verification of the portfolio generator (`src/App.tsx`)

A shallow embedding of the data model and operations of the single-file
React application `src/App.tsx`.  Strings whose character content matters
(the raw comma-separated skills string) are modelled as `List Char`; all
other string payloads are opaque Lean `String`s.  JavaScript array and
object semantics relevant to the embedded operations (spread of
`undefined`, assignment past the end of an array, `filter` with index) are
modelled explicitly where they occur.
-/

set_option autoImplicit false

namespace Portfolio

/-! ## Skills parsing (App.tsx lines 167-172)

`formData.skills.split(',').map(s => s.trim()).filter(s => s !== '')`.

JavaScript `String.prototype.split(',')` splits at every comma and yields
`[""]` on the empty string; `trim` removes leading and trailing
whitespace.  Strings are modelled as `List Char`. -/

/-- JavaScript whitespace test restricted to the characters that occur in
form input (space, tab, newline, carriage return). -/
def isWsChar (c : Char) : Bool :=
  c = ' ' || c = '\t' || c = '\n' || c = '\r'

/-- `s.split(',')`: split a string at every comma; the empty string yields
`[[]]`, and separators at the ends produce empty pieces, exactly as in
JavaScript. -/
def splitOnComma : List Char → List (List Char)
  | [] => [[]]
  | c :: cs =>
    if c = ',' then [] :: splitOnComma cs
    else
      match splitOnComma cs with
      | [] => [[c]]
      | p :: ps => (c :: p) :: ps

/-- `s.trim()`: drop leading and trailing whitespace. -/
def trim (s : List Char) : List Char :=
  ((s.dropWhile isWsChar).reverse.dropWhile isWsChar).reverse

/-- The skills normalization performed on submit:
split on commas, trim each piece, drop empty pieces. -/
def parseSkills (s : List Char) : List (List Char) :=
  ((splitOnComma s).map trim).filter (fun p => p ≠ [])

/-- `arr.join(',')`: join pieces with a single comma between consecutive
pieces. -/
def joinComma : List (List Char) → List Char
  | [] => []
  | [p] => p
  | p :: ps => p ++ ',' :: joinComma ps

example : parseSkills " React, , Node.js ,Node.js".toList
    = ["React".toList, "Node.js".toList, "Node.js".toList] := by decide

example : parseSkills "".toList = [] := by decide

/-! ## Sub-record shapes (App.tsx lines 7-27)

At runtime a freshly added entry is the empty object `{}` (line 154), so
every sub-record field may be absent; fields are therefore `Option
String`, with `none` for the missing (`undefined`) value. -/

/-- `interface Experience` (lines 7-12). -/
structure Experience where
  title : Option String := none
  company : Option String := none
  dates : Option String := none
  description : Option String := none
deriving DecidableEq, Repr

/-- `interface Education` (lines 14-19). -/
structure Education where
  degree : Option String := none
  institution : Option String := none
  dates : Option String := none
  description : Option String := none
deriving DecidableEq, Repr

/-- `interface Project` (lines 21-27). -/
structure Project where
  pname : Option String := none
  description : Option String := none
  technologies : Option String := none
  projectUrl : Option String := none
  githubUrl : Option String := none
deriving DecidableEq, Repr

/-- The sub-field names of `Experience` (`keyof Experience`). -/
inductive ExperienceField
  | title | company | dates | description
deriving DecidableEq, Repr

/-- The sub-field names of `Education` (`keyof Education`). -/
inductive EducationField
  | degree | institution | dates | description
deriving DecidableEq, Repr

/-- The sub-field names of `Project` (`keyof Project`). -/
inductive ProjectField
  | pname | description | technologies | projectUrl | githubUrl
deriving DecidableEq, Repr

/-- `{ ...e, [f]: v }` for an `Experience` object. -/
def Experience.setField (e : Experience) : ExperienceField → String → Experience
  | .title, v => { e with title := some v }
  | .company, v => { e with company := some v }
  | .dates, v => { e with dates := some v }
  | .description, v => { e with description := some v }

/-- Field read `e[f]` for an `Experience` object. -/
def Experience.getField (e : Experience) : ExperienceField → Option String
  | .title => e.title
  | .company => e.company
  | .dates => e.dates
  | .description => e.description

/-- `{ ...e, [f]: v }` for an `Education` object. -/
def Education.setField (e : Education) : EducationField → String → Education
  | .degree, v => { e with degree := some v }
  | .institution, v => { e with institution := some v }
  | .dates, v => { e with dates := some v }
  | .description, v => { e with description := some v }

/-- Field read `e[f]` for an `Education` object. -/
def Education.getField (e : Education) : EducationField → Option String
  | .degree => e.degree
  | .institution => e.institution
  | .dates => e.dates
  | .description => e.description

/-- `{ ...p, [f]: v }` for a `Project` object. -/
def Project.setField (p : Project) : ProjectField → String → Project
  | .pname, v => { p with pname := some v }
  | .description, v => { p with description := some v }
  | .technologies, v => { p with technologies := some v }
  | .projectUrl, v => { p with projectUrl := some v }
  | .githubUrl, v => { p with githubUrl := some v }

/-- Field read `p[f]` for a `Project` object. -/
def Project.getField (p : Project) : ProjectField → Option String
  | .pname => p.pname
  | .description => p.description
  | .technologies => p.technologies
  | .projectUrl => p.projectUrl
  | .githubUrl => p.githubUrl

/-! ## The draft (form state) and the submitted record -/

/-- The form's draft state (App.tsx lines 111-127):
`Omit<PortfolioData, 'skills'> & { skills: string }` — same shape as the
record, except `skills` is still the raw comma-separated string. -/
structure Draft where
  dname : String
  title : String
  email : String
  phone : String
  location : String
  bio : String
  profilePicture : String
  linkedin : String
  github : String
  website : String
  twitter : String
  skills : List Char
  experience : List Experience
  education : List Education
  projects : List Project
deriving DecidableEq, Repr

/-- The initial form state (lines 112-126): every scalar field the empty
string, the raw skills string empty, every sub-record list empty. -/
def initialFormData : Draft where
  dname := ""
  title := ""
  email := ""
  phone := ""
  location := ""
  bio := ""
  profilePicture := ""
  linkedin := ""
  github := ""
  website := ""
  twitter := ""
  skills := []
  experience := []
  education := []
  projects := []

/-- `interface PortfolioData` (lines 29-45): the normalized record; its
`skills` field is an array of strings. -/
structure PortfolioData where
  dname : String
  title : String
  email : String
  phone : String
  location : String
  bio : String
  profilePicture : String
  linkedin : String
  github : String
  website : String
  twitter : String
  skills : List (List Char)
  experience : List Experience
  education : List Education
  projects : List Project
deriving DecidableEq, Repr

/-- The form's `handleSubmit` (lines 167-172): build the record from the
draft wholesale, replacing the raw skills string by its parse. -/
def submitRecord (d : Draft) : PortfolioData where
  dname := d.dname
  title := d.title
  email := d.email
  phone := d.phone
  location := d.location
  bio := d.bio
  profilePicture := d.profilePicture
  linkedin := d.linkedin
  github := d.github
  website := d.website
  twitter := d.twitter
  skills := parseSkills d.skills
  experience := d.experience
  education := d.education
  projects := d.projects

/-! ## List-editing operations (App.tsx lines 136-164) -/

/-- The three repeatable list kinds
(`'experience' | 'education' | 'projects'`). -/
inductive ListKind
  | experience | education | projects
deriving DecidableEq, Repr

/-- The sub-field-name type belonging to each list kind. -/
@[reducible] def SubFieldType : ListKind → Type
  | .experience => ExperienceField
  | .education => EducationField
  | .projects => ProjectField

/-- JavaScript array read `arr[i]`: `undefined` (`none`) when `i` is
negative or past the end. -/
def jsRead {α : Type} (l : List α) (i : Int) : Option α :=
  if 0 ≤ i then l[i.toNat]? else none

/-- JavaScript array element assignment `arr[i] = x`.  In range it
replaces the element; for `i ≥ length` it extends the array to length
`i+1`, the skipped positions becoming holes; a negative `i` creates only
a stray object property and leaves the elements unchanged.  A hole reads
back as `undefined`, which both spreads like `{}` and renders like an
absent entry, so holes are modelled by the all-absent sub-record
`hole`. -/
def jsWrite {α : Type} (l : List α) (i : Int) (x : α) (hole : α) : List α :=
  if i < 0 then l
  else if i.toNat < l.length then l.set i.toNat x
  else l ++ List.replicate (i.toNat - l.length) hole ++ [x]

/-- `handleArrayChange` (lines 136-148): copy the list of the given kind,
then `newArray[index] = { ...newArray[index], [subField]: value }`.  When
`index` is out of range, `newArray[index]` reads as `undefined` and the
spread produces an object holding only `subField`. -/
def handleArrayChange (d : Draft) (k : ListKind) (idx : Int) :
    SubFieldType k → String → Draft :=
  match k with
  | .experience => fun f v =>
      { d with experience :=
          (jsWrite d.experience idx
            (((jsRead d.experience idx).getD {}).setField f v) {}) }
  | .education => fun f v =>
      { d with education :=
          (jsWrite d.education idx
            (((jsRead d.education idx).getD {}).setField f v) {}) }
  | .projects => fun f v =>
      { d with projects :=
          (jsWrite d.projects idx
            (((jsRead d.projects idx).getD {}).setField f v) {}) }

/-- `addEntry` (lines 151-156): append the empty object `{}` to the list
of the given kind. -/
def addEntry (d : Draft) : ListKind → Draft
  | .experience => { d with experience := d.experience ++ [{}] }
  | .education => { d with education := d.education ++ [{}] }
  | .projects => { d with projects := d.projects ++ [{}] }

/-- The recursion behind `arr.filter((_, i) => i !== index)`: walk the
list carrying the running element index `i`, keeping every element whose
index differs from `idx`. -/
def filterIdxNe {α : Type} (idx : Int) : Int → List α → List α
  | _, [] => []
  | i, x :: xs =>
    if i = idx then filterIdxNe idx (i + 1) xs
    else x :: filterIdxNe idx (i + 1) xs

/-- `prevData[field].filter((_, i) => i !== index)`. -/
def removeAt {α : Type} (l : List α) (idx : Int) : List α :=
  filterIdxNe idx 0 l

/-- `removeEntry` (lines 159-164): drop the entry at the given position
from the list of the given kind. -/
def removeEntry (d : Draft) (k : ListKind) (idx : Int) : Draft :=
  match k with
  | .experience => { d with experience := removeAt d.experience idx }
  | .education => { d with education := removeAt d.education idx }
  | .projects => { d with projects := removeAt d.projects idx }

/-! ## Renderer: inclusion logic (App.tsx lines 490-535, 544-547, 555-884)

JSX of the form `{cond && <element/>}` renders the element exactly when
`cond` is truthy; for a string field that means "non-empty".  The models
below record, for each conditionally rendered section or field, whether
its guard holds. -/

/-- JavaScript truthiness of a string: non-empty. -/
def strTruthy (s : String) : Bool := s != ""

/-- JavaScript truthiness of an optional string: present and non-empty. -/
def optTruthy : Option String → Bool
  | none => false
  | some s => s != ""

/-- The four social-link kinds that carry URLs in the record. -/
inductive SocialLink
  | linkedin | github | website | twitter
deriving DecidableEq, Repr

/-- The icon links rendered on the summary profile card (lines 514-530):
`{data.linkedin && <a/>}`, `{data.github && <a/>}`,
`{data.website && <a/>}`, in that order; no other link appears there. -/
def profileCardLinks (r : PortfolioData) : List SocialLink :=
  (if strTruthy r.linkedin then [SocialLink.linkedin] else [])
    ++ (if strTruthy r.github then [SocialLink.github] else [])
    ++ (if strTruthy r.website then [SocialLink.website] else [])

/-- Which conditionally rendered sections and fields of a full layout are
shown: the contact lines, the social links, the four guarded sections,
and the per-entry guarded sub-record fields (one flag per list entry, in
list order). -/
structure Inclusion where
  emailShown : Bool
  phoneShown : Bool
  locationShown : Bool
  linkedinShown : Bool
  githubShown : Bool
  websiteShown : Bool
  twitterShown : Bool
  skillsSection : Bool
  experienceSection : Bool
  educationSection : Bool
  projectsSection : Bool
  eduDescriptionShown : List Bool
  projTechnologiesShown : List Bool
  projUrlShown : List Bool
  projGithubUrlShown : List Bool
deriving DecidableEq, Repr

/-- The inclusion guards of `Template1` (lines 555-727): contact lines at
584/589/594, social links at 606/614/622/630, sections at 642/655/670/685,
education description at 678, project fields at 693/699/709.  Arrays are
always truthy, so `data.skills && data.skills.length > 0` is
`0 < length`. -/
def template1Inclusion (r : PortfolioData) : Inclusion where
  emailShown := strTruthy r.email
  phoneShown := strTruthy r.phone
  locationShown := strTruthy r.location
  linkedinShown := strTruthy r.linkedin
  githubShown := strTruthy r.github
  websiteShown := strTruthy r.website
  twitterShown := strTruthy r.twitter
  skillsSection := decide (0 < r.skills.length)
  experienceSection := decide (0 < r.experience.length)
  educationSection := decide (0 < r.education.length)
  projectsSection := decide (0 < r.projects.length)
  eduDescriptionShown := r.education.map (fun e => optTruthy e.description)
  projTechnologiesShown := r.projects.map (fun p => optTruthy p.technologies)
  projUrlShown := r.projects.map (fun p => optTruthy p.projectUrl)
  projGithubUrlShown := r.projects.map (fun p => optTruthy p.githubUrl)

/-- The inclusion guards of `Template2` (lines 730-884): social links at
743/748/753/758, contact lines at 777/782/787, skills at 794, sections at
810/826/842, education description at 835, project fields at
850/856/866.  The guard expressions are character-for-character the same
conditions as in `Template1`, only placed in a different layout. -/
def template2Inclusion (r : PortfolioData) : Inclusion where
  emailShown := strTruthy r.email
  phoneShown := strTruthy r.phone
  locationShown := strTruthy r.location
  linkedinShown := strTruthy r.linkedin
  githubShown := strTruthy r.github
  websiteShown := strTruthy r.website
  twitterShown := strTruthy r.twitter
  skillsSection := decide (0 < r.skills.length)
  experienceSection := decide (0 < r.experience.length)
  educationSection := decide (0 < r.education.length)
  projectsSection := decide (0 < r.projects.length)
  eduDescriptionShown := r.education.map (fun e => optTruthy e.description)
  projTechnologiesShown := r.projects.map (fun p => optTruthy p.technologies)
  projUrlShown := r.projects.map (fun p => optTruthy p.projectUrl)
  projGithubUrlShown := r.projects.map (fun p => optTruthy p.githubUrl)

/-- `PortfolioPage` (lines 544-547): dispatch on the template identifier,
any identifier other than `"template2"` falling back to `Template1`;
here projected to the inclusion guards of the chosen template. -/
def portfolioPageInclusion (r : PortfolioData) (tid : String) : Inclusion :=
  if tid = "template2" then template2Inclusion r else template1Inclusion r

/-! ## The application state machine (App.tsx lines 48-99, 109-172)

`App` holds `portfolioData : PortfolioData | null` and
`showFullPortfolio : boolean`; the JSX at lines 79-96 shows the full
portfolio when both `showFullPortfolio` and a record are present, the
profile card when only a record is present, and the form otherwise.  The
form's draft lives in `PortfolioForm`'s own state: it exists while the
form is mounted and is re-created at its initial value (lines 111-127)
whenever the form mounts again. -/

/-- The display modes of the spec's state machine. -/
inductive Mode
  | EDITING | SUMMARY | FULL
deriving DecidableEq, Repr

/-- The whole in-memory state: `App`'s two state cells plus the form's
draft.  The draft field is meaningful only in `EDITING` mode (the form is
unmounted otherwise); it is reset to `initialFormData` whenever the form
remounts. -/
structure SysState where
  portfolioData : Option PortfolioData
  showFullPortfolio : Bool
  draft : Draft
deriving DecidableEq, Repr

/-- The display mode determined by the conditional rendering at lines
79-96: full portfolio when `showFullPortfolio && portfolioData`, the
summary card when a record is present, the editor otherwise. -/
def SysState.mode (s : SysState) : Mode :=
  match s.portfolioData, s.showFullPortfolio with
  | some _, true => Mode.FULL
  | some _, false => Mode.SUMMARY
  | none, _ => Mode.EDITING

/-- The initial state (lines 50, 54, 111-127): no record, summary flag
off, blank draft. -/
def initialState : SysState where
  portfolioData := none
  showFullPortfolio := false
  draft := initialFormData

/-- The scalar form-field names handled by `handleChange`
(the raw skills string included). -/
inductive ScalarField
  | dname | title | email | phone | location | bio | profilePicture
  | linkedin | github | website | twitter | skills
deriving DecidableEq, Repr

/-- `handleChange` (lines 130-133): `{ ...prev, [name]: value }` for a
scalar field of the draft. -/
def handleChange (d : Draft) : ScalarField → String → Draft
  | .dname, v => { d with dname := v }
  | .title, v => { d with title := v }
  | .email, v => { d with email := v }
  | .phone, v => { d with phone := v }
  | .location, v => { d with location := v }
  | .bio, v => { d with bio := v }
  | .profilePicture, v => { d with profilePicture := v }
  | .linkedin, v => { d with linkedin := v }
  | .github, v => { d with github := v }
  | .website, v => { d with website := v }
  | .twitter, v => { d with twitter := v }
  | .skills, v => { d with skills := v.toList }

/-- The user-triggered events, one per handler in the source:
form edits (lines 130-164), form submission (167-172 feeding 57-60), the
card click (63-65), the card's reset button (92), and the back button of
the full page (68-71). -/
inductive Event
  | change (f : ScalarField) (v : String)
  | arrayChange (k : ListKind) (idx : Int) (f : SubFieldType k) (v : String)
  | add (k : ListKind)
  | remove (k : ListKind) (idx : Int)
  | submitForm
  | cardClick
  | cardReset
  | backToForm

/-- One event step of the application.  Submission stores the normalized
record and clears the full-page flag (lines 57-60); the card click sets
it (63-65); the card's reset clears only the record (92); the back button
clears both (68-71).  Whenever the record becomes absent the form
remounts, so the draft is the freshly initialised `initialFormData`. -/
def step (s : SysState) : Event → SysState
  | .change f v => { s with draft := handleChange s.draft f v }
  | .arrayChange k idx f v =>
      { s with draft := handleArrayChange s.draft k idx f v }
  | .add k => { s with draft := addEntry s.draft k }
  | .remove k idx => { s with draft := removeEntry s.draft k idx }
  | .submitForm =>
      { portfolioData := some (submitRecord s.draft)
        showFullPortfolio := false
        draft := s.draft }
  | .cardClick => { s with showFullPortfolio := true }
  | .cardReset =>
      { portfolioData := none
        showFullPortfolio := s.showFullPortfolio
        draft := initialFormData }
  | .backToForm =>
      { portfolioData := none
        showFullPortfolio := false
        draft := initialFormData }

/-- Which events can fire in which display mode: each handler is attached
to an element that the JSX at lines 79-96 renders only in that mode — the
form and its editing controls only while editing, the card's click and
reset handlers only on the summary card, the back button only on the full
page. -/
def avail (m : Mode) : Event → Prop
  | .change _ _ => m = Mode.EDITING
  | .arrayChange _ _ _ _ => m = Mode.EDITING
  | .add _ => m = Mode.EDITING
  | .remove _ _ => m = Mode.EDITING
  | .submitForm => m = Mode.EDITING
  | .cardClick => m = Mode.SUMMARY
  | .cardReset => m = Mode.SUMMARY
  | .backToForm => m = Mode.FULL

/-- What positional removal is claimed to do to a list: in range
(position `k`), the result is one shorter, keeps every element before `k`
in place and shifts every later element down by one; out of range
(negative or at least the length), the list is returned unchanged. -/
def removeSpec {α : Type} (l : List α) (idx : Int) (l' : List α) : Prop :=
  (∀ k : Nat, idx = (k : Int) → k < l.length →
      l'.length = l.length - 1
        ∧ (∀ j : Nat, j < k → l'[j]? = l[j]?)
        ∧ (∀ j : Nat, k ≤ j → l'[j]? = l[j + 1]?))
    ∧ (idx < 0 ∨ (l.length : Int) ≤ idx → l' = l)

/-- What an in-range positional sub-field update is claimed to do to a
list of sub-records: at position `k` the sub-record is replaced by the
one with field `f` set to `v`, the length and every other position are
untouched, and the replacement changes field `f` to `v` and no other
field. -/
def updateSpec {α φ : Type} (setF : α → φ → String → α)
    (getF : α → φ → Option String)
    (l : List α) (idx : Int) (f : φ) (v : String) (l' : List α) : Prop :=
  ∀ k : Nat, idx = (k : Int) → k < l.length →
    l'.length = l.length
      ∧ (∀ j : Nat, j ≠ k → l'[j]? = l[j]?)
      ∧ l'[k]? = (l[k]?).map (fun e => setF e f v)
      ∧ (∀ e : α, getF (setF e f v) f = some v)
      ∧ (∀ (e : α) (g : φ), g ≠ f → getF (setF e f v) g = getF e g)

/-- A draft with three distinct experience entries, used to instantiate
the positional-operation theorems at concrete inputs. -/
def sampleDraft : Draft :=
  { initialFormData with
      experience :=
        [{ title := some "E0" }, { title := some "E1" }, { title := some "E2" }] }

/-- A concrete submitted record (the submission of the blank draft). -/
def sampleRecord : PortfolioData := submitRecord initialFormData

/-- A concrete state in FULL display mode, used to instantiate the
state-machine theorems. -/
def sampleFullState : SysState where
  portfolioData := some sampleRecord
  showFullPortfolio := true
  draft := initialFormData

/-! ## Theorems -/

/-! ### Lemmas about positional removal (`filter((_, i) => i !== index)`) -/

theorem filterIdxNe_of_lt {α : Type} (l : List α) :
    ∀ i idx : Int, idx < i → filterIdxNe idx i l = l := by
  induction l with
  | nil => intro i idx _; rfl
  | cons x xs ih =>
    intro i idx h
    simp only [filterIdxNe]
    rw [if_neg (by omega), ih (i + 1) idx (by omega)]

theorem filterIdxNe_add {α : Type} (l : List α) :
    ∀ (i : Int) (k : Nat), filterIdxNe (i + k) i l = l.eraseIdx k := by
  induction l with
  | nil => intro i k; simp [filterIdxNe]
  | cons x xs ih =>
    intro i k
    cases k with
    | zero =>
      simp only [filterIdxNe]
      rw [if_pos (by omega), filterIdxNe_of_lt xs (i + 1) (i + ((0 : Nat) : Int)) (by omega)]
      simp
    | succ n =>
      simp only [filterIdxNe]
      rw [if_neg (by omega)]
      have hc : i + ((n + 1 : Nat) : Int) = (i + 1) + (n : Nat) := by push_cast; ring
      rw [hc, ih (i + 1) n, List.eraseIdx_cons_succ]

theorem removeAt_coe {α : Type} (l : List α) (k : Nat) :
    removeAt l (k : Int) = l.eraseIdx k := by
  have h := filterIdxNe_add l 0 k
  simpa [removeAt] using h

theorem removeAt_of_neg {α : Type} (l : List α) (i : Int) (h : i < 0) :
    removeAt l i = l :=
  filterIdxNe_of_lt l 0 i h

theorem eraseIdx_length_le {α : Type} (l : List α) :
    ∀ k : Nat, l.length ≤ k → l.eraseIdx k = l := by
  induction l with
  | nil => intro k _; simp
  | cons x xs ih =>
    intro k h
    cases k with
    | zero => simp at h
    | succ n => rw [List.eraseIdx_cons_succ, ih n (by simpa using h)]

theorem length_eraseIdx_of_lt {α : Type} (l : List α) :
    ∀ k : Nat, k < l.length → (l.eraseIdx k).length = l.length - 1 := by
  induction l with
  | nil => intro k h; simp at h
  | cons x xs ih =>
    intro k h
    cases k with
    | zero => simp
    | succ n =>
      rw [List.eraseIdx_cons_succ]
      simp only [List.length_cons]
      rw [ih n (by simpa using h)]
      have : n < xs.length := by simpa using h
      omega

theorem getElem?_eraseIdx_of_lt {α : Type} (l : List α) :
    ∀ k j : Nat, j < k → (l.eraseIdx k)[j]? = l[j]? := by
  induction l with
  | nil => intro k j _; simp
  | cons x xs ih =>
    intro k j hj
    cases k with
    | zero => omega
    | succ n =>
      rw [List.eraseIdx_cons_succ]
      cases j with
      | zero => simp
      | succ m =>
        rw [List.getElem?_cons_succ, List.getElem?_cons_succ, ih n m (by omega)]

theorem getElem?_eraseIdx_of_ge {α : Type} (l : List α) :
    ∀ k j : Nat, k ≤ j → (l.eraseIdx k)[j]? = l[j + 1]? := by
  induction l with
  | nil => intro k j _; simp
  | cons x xs ih =>
    intro k j hk
    cases k with
    | zero =>
      rw [List.eraseIdx_cons_zero, List.getElem?_cons_succ]
    | succ n =>
      rw [List.eraseIdx_cons_succ]
      cases j with
      | zero => omega
      | succ m =>
        rw [List.getElem?_cons_succ, List.getElem?_cons_succ, ih n m (by omega)]

theorem eraseIdx_append_length {α : Type} (l : List α) (e : α) :
    (l ++ [e]).eraseIdx l.length = l := by
  induction l with
  | nil => rfl
  | cons x xs ih =>
    simp only [List.cons_append, List.length_cons, List.eraseIdx_cons_succ, ih]

theorem removeAt_spec {α : Type} (l : List α) (idx : Int) :
    removeSpec l idx (removeAt l idx) := by
  constructor
  · rintro k rfl hk
    rw [removeAt_coe]
    exact ⟨length_eraseIdx_of_lt l k hk,
      fun j hj => getElem?_eraseIdx_of_lt l k j hj,
      fun j hj => getElem?_eraseIdx_of_ge l k j hj⟩
  · intro h
    rcases h with h | h
    · exact removeAt_of_neg l idx h
    · have h0 : 0 ≤ idx := by omega
      obtain ⟨k, rfl⟩ : ∃ k : Nat, idx = (k : Int) :=
        ⟨idx.toNat, (Int.toNat_of_nonneg h0).symm⟩
      rw [removeAt_coe]
      exact eraseIdx_length_le l k (by exact_mod_cast h)

/-- C4: for every list kind, removing at an in-range position `i` from a
draft list of length `n` yields a list of length `n-1` keeping elements
before `i` and shifting the later ones down by one; removing at a
negative or too-large position (in particular from an empty list) leaves
the list unchanged. -/
theorem removeEntry_spec (d : Draft) (idx : Int) :
    removeSpec d.experience idx (removeEntry d ListKind.experience idx).experience
      ∧ removeSpec d.education idx (removeEntry d ListKind.education idx).education
      ∧ removeSpec d.projects idx (removeEntry d ListKind.projects idx).projects :=
  ⟨removeAt_spec _ _, removeAt_spec _ _, removeAt_spec _ _⟩

/-- Witness for C4 at a concrete input: removing position 1 from the
three-entry sample list shortens it to two entries and shifts position 2
down to position 1. -/
theorem removeEntry_spec_witness :
    (removeEntry sampleDraft ListKind.experience 1).experience.length
        = sampleDraft.experience.length - 1
      ∧ (removeEntry sampleDraft ListKind.experience 1).experience[1]?
        = sampleDraft.experience[1 + 1]?
      ∧ (removeEntry sampleDraft ListKind.experience 1).experience[0]?
        = sampleDraft.experience[0]? :=
  ⟨((removeEntry_spec sampleDraft 1).1.1 1 rfl (by decide)).1,
    ((removeEntry_spec sampleDraft 1).1.1 1 rfl (by decide)).2.2 1 (le_refl 1),
    ((removeEntry_spec sampleDraft 1).1.1 1 rfl (by decide)).2.1 0 (by decide)⟩

/-- C6: for every list kind, appending a fresh all-absent sub-record and
then removing the entry at the appended position restores the draft
exactly. -/
theorem add_remove_roundtrip (d : Draft) :
    removeEntry (addEntry d ListKind.experience) ListKind.experience
        (d.experience.length : Int) = d
      ∧ removeEntry (addEntry d ListKind.education) ListKind.education
        (d.education.length : Int) = d
      ∧ removeEntry (addEntry d ListKind.projects) ListKind.projects
        (d.projects.length : Int) = d := by
  refine ⟨?_, ?_, ?_⟩ <;>
    simp [addEntry, removeEntry, removeAt_coe, eraseIdx_append_length]

/-! ### Lemmas about the positional sub-field update -/

theorem jsRead_coe {α : Type} (l : List α) (k : Nat) :
    jsRead l (k : Int) = l[k]? := by
  unfold jsRead
  rw [if_pos (by omega), Int.toNat_natCast]

theorem jsWrite_in_range {α : Type} (l : List α) (k : Nat) (x hole : α)
    (hk : k < l.length) : jsWrite l (k : Int) x hole = l.set k x := by
  unfold jsWrite
  rw [if_neg (by omega), Int.toNat_natCast, if_pos hk]

theorem jsWrite_list_facts {α : Type} (l : List α) (k : Nat) (x hole : α)
    (hk : k < l.length) :
    (jsWrite l (k : Int) x hole).length = l.length
      ∧ (∀ j : Nat, j ≠ k → (jsWrite l (k : Int) x hole)[j]? = l[j]?)
      ∧ (jsWrite l (k : Int) x hole)[k]? = some x := by
  rw [jsWrite_in_range l k x hole hk]
  exact ⟨List.length_set l k x,
    fun j hj => List.getElem?_set_ne (Ne.symm hj),
    List.getElem?_set_self hk⟩

theorem jsWrite_neg {α : Type} (l : List α) (idx : Int) (x hole : α)
    (h : idx < 0) : jsWrite l idx x hole = l := by
  unfold jsWrite
  rw [if_pos h]

theorem jsWrite_oob {α : Type} (l : List α) (idx : Int) (x hole : α)
    (h0 : 0 ≤ idx) (hlen : (l.length : Int) ≤ idx) :
    jsWrite l idx x hole = l ++ List.replicate (idx.toNat - l.length) hole ++ [x] := by
  have hge : l.length ≤ idx.toNat := by omega
  unfold jsWrite
  rw [if_neg (by omega), if_neg (Nat.not_lt.mpr hge)]

theorem jsRead_oob {α : Type} (l : List α) (idx : Int)
    (h0 : 0 ≤ idx) (hlen : (l.length : Int) ≤ idx) : jsRead l idx = none := by
  have hge : l.length ≤ idx.toNat := by omega
  unfold jsRead
  rw [if_pos h0, List.getElem?_eq_none hge]

theorem experience_getField_setField_self (e : Experience) (f : ExperienceField)
    (v : String) : (e.setField f v).getField f = some v := by
  cases f <;> rfl

theorem experience_getField_setField_of_ne (e : Experience)
    (f g : ExperienceField) (v : String) (h : g ≠ f) :
    (e.setField f v).getField g = e.getField g := by
  cases f <;> cases g <;> first | rfl | exact absurd rfl h

theorem education_getField_setField_self (e : Education) (f : EducationField)
    (v : String) : (e.setField f v).getField f = some v := by
  cases f <;> rfl

theorem education_getField_setField_of_ne (e : Education)
    (f g : EducationField) (v : String) (h : g ≠ f) :
    (e.setField f v).getField g = e.getField g := by
  cases f <;> cases g <;> first | rfl | exact absurd rfl h

theorem project_getField_setField_self (p : Project) (f : ProjectField)
    (v : String) : (p.setField f v).getField f = some v := by
  cases f <;> rfl

theorem project_getField_setField_of_ne (p : Project)
    (f g : ProjectField) (v : String) (h : g ≠ f) :
    (p.setField f v).getField g = p.getField g := by
  cases f <;> cases g <;> first | rfl | exact absurd rfl h

theorem updateSpec_jsWrite {α φ : Type} (setF : α → φ → String → α)
    (getF : α → φ → Option String)
    (hs : ∀ (e : α) (f : φ) (v : String), getF (setF e f v) f = some v)
    (hn : ∀ (e : α) (f g : φ) (v : String), g ≠ f → getF (setF e f v) g = getF e g)
    (l : List α) (idx : Int) (f : φ) (v : String) (hole : α) :
    updateSpec setF getF l idx f v
      (jsWrite l idx (setF ((jsRead l idx).getD hole) f v) hole) := by
  rintro k rfl hk
  have hr : (jsRead l (k : Int)).getD hole = l[k] := by
    rw [jsRead_coe, List.getElem?_eq_getElem hk]
    rfl
  rw [hr]
  obtain ⟨hlen, hnej, hselfj⟩ := jsWrite_list_facts l k (setF l[k] f v) hole hk
  refine ⟨hlen, hnej, ?_, fun e => hs e f v, fun e g hg => hn e f g v hg⟩
  rw [hselfj, List.getElem?_eq_getElem hk]
  rfl

/-- C7: for every list kind, an in-range positional sub-field update
changes only sub-field `f` of the sub-record at the given position: the
result differs from the draft only in that one list (so every scalar
field, the raw skills string and the other two lists are untouched), and
within that list only position `k`, where exactly field `f` is replaced
by the new value. -/
theorem arrayChange_in_range_frame (d : Draft) (idx : Int) :
    (∀ (f : ExperienceField) (v : String), ∃ l',
        handleArrayChange d ListKind.experience idx f v = { d with experience := l' }
          ∧ updateSpec Experience.setField Experience.getField d.experience idx f v l')
      ∧ (∀ (f : EducationField) (v : String), ∃ l',
          handleArrayChange d ListKind.education idx f v = { d with education := l' }
            ∧ updateSpec Education.setField Education.getField d.education idx f v l')
      ∧ (∀ (f : ProjectField) (v : String), ∃ l',
          handleArrayChange d ListKind.projects idx f v = { d with projects := l' }
            ∧ updateSpec Project.setField Project.getField d.projects idx f v l') := by
  exact ⟨fun f v => ⟨_, rfl, updateSpec_jsWrite Experience.setField Experience.getField
      experience_getField_setField_self experience_getField_setField_of_ne
      d.experience idx f v {}⟩,
    fun f v => ⟨_, rfl, updateSpec_jsWrite Education.setField Education.getField
      education_getField_setField_self education_getField_setField_of_ne
      d.education idx f v {}⟩,
    fun f v => ⟨_, rfl, updateSpec_jsWrite Project.setField Project.getField
      project_getField_setField_self project_getField_setField_of_ne
      d.projects idx f v {}⟩⟩

/-- Witness for C7 at a concrete input: updating the `company` field of
experience entry 1 of the sample draft yields, at position 1, the entry
with its `company` set and its `title` untouched. -/
theorem arrayChange_in_range_frame_witness :
    (handleArrayChange sampleDraft ListKind.experience 1
        ExperienceField.company "ACME").experience[1]?
      = some { title := some "E1", company := some "ACME" } := by
  obtain ⟨l', heq, hspec⟩ :=
    (arrayChange_in_range_frame sampleDraft 1).1 ExperienceField.company "ACME"
  have h := (hspec 1 rfl (by decide)).2.2.1
  rw [heq]
  show l'[1]? = _
  rw [h]
  decide

/-- Counterexample to C2 as stated: on the empty experience list of the
blank draft, position 0 is out of range, yet the positional sub-field
update does not leave the draft unchanged — it creates an entry. -/
theorem arrayChange_oob_not_noop :
    handleArrayChange initialFormData ListKind.experience 0
      ExperienceField.title "X" ≠ initialFormData := by decide

/-- C2 amended: a positional sub-field update at a negative position
leaves the draft unchanged, but at a position `idx ≥ length` it is not a
no-op: it extends the list of that kind to length `idx + 1`, the skipped
positions becoming holes, with a sub-record holding only the updated
field placed at position `idx`; the rest of the draft is unchanged. -/
theorem arrayChange_out_of_range (d : Draft) (idx : Int) :
    (∀ (k : ListKind) (f : SubFieldType k) (v : String),
        idx < 0 → handleArrayChange d k idx f v = d)
      ∧ (∀ (f : ExperienceField) (v : String),
          0 ≤ idx → (d.experience.length : Int) ≤ idx →
            handleArrayChange d ListKind.experience idx f v
              = { d with experience :=
                    d.experience
                      ++ List.replicate (idx.toNat - d.experience.length) {}
                      ++ [Experience.setField {} f v] })
      ∧ (∀ (f : EducationField) (v : String),
          0 ≤ idx → (d.education.length : Int) ≤ idx →
            handleArrayChange d ListKind.education idx f v
              = { d with education :=
                    d.education
                      ++ List.replicate (idx.toNat - d.education.length) {}
                      ++ [Education.setField {} f v] })
      ∧ (∀ (f : ProjectField) (v : String),
          0 ≤ idx → (d.projects.length : Int) ≤ idx →
            handleArrayChange d ListKind.projects idx f v
              = { d with projects :=
                    d.projects
                      ++ List.replicate (idx.toNat - d.projects.length) {}
                      ++ [Project.setField {} f v] }) := by
  refine ⟨?_, ?_, ?_, ?_⟩
  · intro k f v hneg
    cases k <;>
      · simp only [handleArrayChange]
        rw [jsWrite_neg _ _ _ _ hneg]
  all_goals
    intro f v h0 hlen
    simp only [handleArrayChange]
    rw [jsRead_oob _ _ h0 hlen, jsWrite_oob _ _ _ _ h0 hlen]
    rfl

/-- Witness for C2: a negative position is a no-op on the sample draft,
and position 0 on the blank draft's empty experience list appends the
one-field entry instead of leaving the draft unchanged. -/
theorem arrayChange_out_of_range_witness :
    handleArrayChange sampleDraft ListKind.education (-2)
        EducationField.degree "BSc" = sampleDraft
      ∧ handleArrayChange initialFormData ListKind.experience 0
          ExperienceField.title "X"
        = { initialFormData with
              experience := [Experience.setField {} ExperienceField.title "X"] } := by
  constructor
  · exact (arrayChange_out_of_range sampleDraft (-2)).1 ListKind.education
      EducationField.degree "BSc" (by decide)
  · have h := (arrayChange_out_of_range initialFormData 0).2.1
      ExperienceField.title "X" (by decide) (by decide)
    rw [h]
    decide

/-- C1: submitting a draft produces a record whose `skills` field is the
draft's raw skills string split on commas, with each piece trimmed and
empty pieces discarded, order preserved and duplicates kept; in
particular `" React, , Node.js ,Node.js"` yields
`["React", "Node.js", "Node.js"]`. -/
theorem submit_parses_skills (d : Draft) :
    (submitRecord d).skills
        = ((splitOnComma d.skills).map trim).filter (fun p => p ≠ [])
      ∧ parseSkills " React, , Node.js ,Node.js".toList
        = ["React".toList, "Node.js".toList, "Node.js".toList] :=
  ⟨rfl, by decide⟩

/-- C10: the summary profile card shows icon links exactly for the
non-empty linkedin, github and website URLs; the twitter URL is never
shown there, even when non-empty. -/
theorem profileCard_link_set (r : PortfolioData) :
    (SocialLink.linkedin ∈ profileCardLinks r ↔ r.linkedin ≠ "")
      ∧ (SocialLink.github ∈ profileCardLinks r ↔ r.github ≠ "")
      ∧ (SocialLink.website ∈ profileCardLinks r ↔ r.website ≠ "")
      ∧ SocialLink.twitter ∉ profileCardLinks r := by
  unfold profileCardLinks strTruthy
  split_ifs with h1 h2 h3 <;>
    simp_all [bne_iff_ne]

/-- C3: both templates include exactly the same sections and fields for
any record — the page-level inclusion outcome does not depend on the
template identifier — and the common inclusion rule is: a repeatable
section appears iff its list is non-empty, the skills section iff the
skills sequence is non-empty, and education descriptions, project
technologies, project URLs and repository URLs per entry iff that
optional field is present and non-empty. -/
theorem template_inclusion_agrees (r : PortfolioData) (tid tid' : String) :
    portfolioPageInclusion r tid = portfolioPageInclusion r tid'
      ∧ template1Inclusion r = template2Inclusion r
      ∧ ((template1Inclusion r).experienceSection = true ↔ r.experience ≠ [])
      ∧ ((template1Inclusion r).educationSection = true ↔ r.education ≠ [])
      ∧ ((template1Inclusion r).projectsSection = true ↔ r.projects ≠ [])
      ∧ ((template1Inclusion r).skillsSection = true ↔ r.skills ≠ [])
      ∧ (template1Inclusion r).eduDescriptionShown
          = r.education.map (fun e => optTruthy e.description)
      ∧ (template1Inclusion r).projTechnologiesShown
          = r.projects.map (fun p => optTruthy p.technologies)
      ∧ (template1Inclusion r).projUrlShown
          = r.projects.map (fun p => optTruthy p.projectUrl)
      ∧ (template1Inclusion r).projGithubUrlShown
          = r.projects.map (fun p => optTruthy p.githubUrl)
      ∧ (∀ o : Option String, optTruthy o = true ↔ ∃ s, o = some s ∧ s ≠ "") := by
  refine ⟨?_, rfl, ?_, ?_, ?_, ?_, rfl, rfl, rfl, rfl, ?_⟩
  · unfold portfolioPageInclusion
    split_ifs <;> rfl
  · simp [template1Inclusion, List.length_pos]
  · simp [template1Inclusion, List.length_pos]
  · simp [template1Inclusion, List.length_pos]
  · simp [template1Inclusion, List.length_pos]
  · intro o
    cases o <;> simp [optTruthy, bne_iff_ne]

/-! ### Lemmas for the skills-parse round trip -/

theorem splitOnComma_cons_comma (cs : List Char) :
    splitOnComma (',' :: cs) = [] :: splitOnComma cs := by
  simp [splitOnComma]

theorem splitOnComma_no_comma :
    ∀ (s : List Char), ∀ p ∈ splitOnComma s, ',' ∉ p := by
  intro s
  induction s with
  | nil =>
    intro p hp
    simp only [splitOnComma, List.mem_singleton] at hp
    simp [hp]
  | cons c cs ih =>
    intro p hp
    by_cases hc : c = ','
    · subst hc
      rw [splitOnComma_cons_comma] at hp
      rcases List.mem_cons.mp hp with hp2 | hp2
      · simp [hp2]
      · exact ih p hp2
    · simp only [splitOnComma, if_neg hc] at hp
      cases hsp : splitOnComma cs with
      | nil =>
        rw [hsp] at hp
        simp only [List.mem_singleton] at hp
        subst hp
        intro hm
        simp only [List.mem_singleton] at hm
        exact hc hm.symm
      | cons q qs =>
        rw [hsp] at hp
        simp only [List.mem_cons] at hp
        rcases hp with hp | hp
        · subst hp
          intro hm
          simp only [List.mem_cons] at hm
          rcases hm with hm | hm
          · exact hc hm.symm
          · exact ih q (by rw [hsp]; exact List.mem_cons_self q qs) hm
        · exact ih p (by rw [hsp]; exact List.mem_cons_of_mem q hp)

theorem mem_of_mem_trim {c : Char} {p : List Char} (h : c ∈ trim p) : c ∈ p := by
  unfold trim at h
  rw [List.mem_reverse] at h
  have h2 := (List.dropWhile_sublist isWsChar).subset h
  rw [List.mem_reverse] at h2
  exact (List.dropWhile_sublist isWsChar).subset h2

theorem splitOnComma_of_no_comma :
    ∀ (p : List Char), ',' ∉ p → splitOnComma p = [p] := by
  intro p
  induction p with
  | nil => intro _; rfl
  | cons c cs ih =>
    intro h
    have hc : ¬ c = ',' := fun he => h (by simp [he])
    have hcs : ',' ∉ cs := fun hm => h (List.mem_cons_of_mem c hm)
    simp only [splitOnComma, if_neg hc, ih hcs]

theorem splitOnComma_append_comma :
    ∀ (p r : List Char), ',' ∉ p →
      splitOnComma (p ++ ',' :: r) = p :: splitOnComma r := by
  intro p
  induction p with
  | nil =>
    intro r _
    simp [splitOnComma]
  | cons c cs ih =>
    intro r h
    have hc : ¬ c = ',' := fun he => h (by simp [he])
    have hcs : ',' ∉ cs := fun hm => h (List.mem_cons_of_mem c hm)
    rw [List.cons_append]
    simp only [splitOnComma, if_neg hc]
    rw [ih r hcs]

theorem splitOnComma_joinComma :
    ∀ (l : List (List Char)), l ≠ [] → (∀ p ∈ l, ',' ∉ p) →
      splitOnComma (joinComma l) = l := by
  intro l
  induction l with
  | nil => intro h _; exact absurd rfl h
  | cons p ps ih =>
    intro _ hall
    cases ps with
    | nil =>
      simp only [joinComma]
      exact splitOnComma_of_no_comma p (hall p (List.mem_cons_self p []))
    | cons q qs =>
      have hj : joinComma (p :: q :: qs) = p ++ ',' :: joinComma (q :: qs) := rfl
      rw [hj, splitOnComma_append_comma p _ (hall p (List.mem_cons_self p _)),
        ih (by simp) (fun x hx => hall x (List.mem_cons_of_mem p hx))]

theorem dropWhile_idem (w : Char → Bool) (l : List Char) :
    (l.dropWhile w).dropWhile w = l.dropWhile w := by
  induction l with
  | nil => rfl
  | cons a as ih =>
    by_cases ha : w a
    · rw [List.dropWhile_cons_of_pos ha]
      exact ih
    · rw [List.dropWhile_cons_of_neg ha, List.dropWhile_cons_of_neg ha]

theorem dropWhile_eq_self_of_pre (w : Char → Bool) {t y : List Char}
    (hpre : t <+: y) (hy : y.dropWhile w = y) : t.dropWhile w = t := by
  cases t with
  | nil => rfl
  | cons a t2 =>
    obtain ⟨r, hr⟩ := hpre
    subst hr
    rw [List.cons_append] at hy
    by_cases ha : w a
    · exfalso
      rw [List.dropWhile_cons_of_pos ha] at hy
      have hlen := congrArg List.length hy
      have hle := (List.dropWhile_sublist (l := t2 ++ r) w).length_le
      simp only [List.length_cons] at hlen
      omega
    · exact List.dropWhile_cons_of_neg ha

theorem trimRight_pre (w : Char → Bool) (y : List Char) :
    (y.reverse.dropWhile w).reverse <+: y := by
  have h := List.dropWhile_suffix (l := y.reverse) w
  have h2 := List.reverse_prefix.mpr h
  rwa [List.reverse_reverse] at h2

theorem trim_dropWhile (s : List Char) :
    (trim s).dropWhile isWsChar = trim s :=
  dropWhile_eq_self_of_pre isWsChar
    (trimRight_pre isWsChar (s.dropWhile isWsChar))
    (dropWhile_idem isWsChar s)

theorem trim_idem (s : List Char) : trim (trim s) = trim s := by
  show ((((trim s).dropWhile isWsChar).reverse.dropWhile isWsChar)).reverse = trim s
  rw [trim_dropWhile]
  have h2 : (trim s).reverse = (s.dropWhile isWsChar).reverse.dropWhile isWsChar := by
    unfold trim
    rw [List.reverse_reverse]
  rw [h2, dropWhile_idem, ← h2, List.reverse_reverse]

theorem mem_parseSkills {s p : List Char} (hp : p ∈ parseSkills s) :
    trim p = p ∧ p ≠ [] ∧ ',' ∉ p := by
  unfold parseSkills at hp
  rw [List.mem_filter] at hp
  obtain ⟨hmem, hne⟩ := hp
  rw [List.mem_map] at hmem
  obtain ⟨q, hq, rfl⟩ := hmem
  refine ⟨trim_idem q, by simpa using hne, ?_⟩
  intro hc
  exact splitOnComma_no_comma s q hq (mem_of_mem_trim hc)

/-- C5: the skills parse is a round trip: for any raw string whose parsed
entries contain no comma (which is in fact automatic), re-parsing the
comma-rejoined parse gives the same sequence in the same order. -/
theorem parseSkills_roundtrip (s : List Char)
    (h : ∀ p ∈ parseSkills s, ',' ∉ p) :
    parseSkills (joinComma (parseSkills s)) = parseSkills s := by
  by_cases hne : parseSkills s = []
  · rw [hne]
    decide
  · have hsplit : splitOnComma (joinComma (parseSkills s)) = parseSkills s :=
      splitOnComma_joinComma _ hne h
    show ((splitOnComma (joinComma (parseSkills s))).map trim).filter
        (fun p => p ≠ []) = parseSkills s
    rw [hsplit]
    have hmap : (parseSkills s).map trim = parseSkills s := by
      have hc := List.map_congr_left
        (fun q hq => (mem_parseSkills (s := s) hq).1)
      simpa using hc
    rw [hmap]
    exact List.filter_eq_self.mpr
      (fun q hq => by simpa using (mem_parseSkills hq).2.1)

/-- Witness for C5 at a concrete input: the parse of `" a, b ,a"` has no
commas in its entries and survives the rejoin/re-parse round trip. -/
theorem parseSkills_roundtrip_witness :
    (∀ p ∈ parseSkills " a, b ,a".toList, ',' ∉ p)
      ∧ parseSkills (joinComma (parseSkills " a, b ,a".toList))
        = parseSkills " a, b ,a".toList :=
  ⟨by decide, parseSkills_roundtrip _ (by decide)⟩

/-- C8: the display-mode machine starts in EDITING and, with each event
gated by the interface that is actually mounted in the current mode,
admits exactly the claimed transitions: from EDITING only submission
reaches SUMMARY (and FULL is unreachable in one step), from SUMMARY the
card click reaches FULL and the card reset reaches EDITING (and every
available event lands in one of those two), from FULL the only available
event is the back-button reset, which reaches EDITING; no step ever goes
from FULL to SUMMARY. -/
theorem display_mode_transitions (s : SysState) (e : Event)
    (h : avail s.mode e) :
    initialState.mode = Mode.EDITING
      ∧ (s.mode = Mode.EDITING →
          ((step s e).mode = Mode.SUMMARY ↔ e = Event.submitForm)
            ∧ (step s e).mode ≠ Mode.FULL)
      ∧ (s.mode = Mode.SUMMARY →
          (e = Event.cardClick → (step s e).mode = Mode.FULL)
            ∧ (e = Event.cardReset → (step s e).mode = Mode.EDITING)
            ∧ ((step s e).mode = Mode.FULL ∨ (step s e).mode = Mode.EDITING))
      ∧ (s.mode = Mode.FULL →
          e = Event.backToForm ∧ (step s e).mode = Mode.EDITING)
      ∧ ¬((s.mode = Mode.FULL) ∧ (step s e).mode = Mode.SUMMARY) := by
  obtain ⟨pd, sf, dr⟩ := s
  cases pd <;> cases sf <;> cases e <;>
    simp_all [SysState.mode, step, avail, initialState]

/-- Witness for C8: from a concrete FULL state the back button steps to
EDITING. -/
theorem display_mode_transitions_witness :
    (step sampleFullState Event.backToForm).mode = Mode.EDITING :=
  ((display_mode_transitions sampleFullState Event.backToForm rfl).2.2.2.1
    rfl).2

/-- C9: from any state in FULL display mode, the back-button reset clears
the record to absent and returns the system to EDITING with the
completely blank draft: every scalar field and the raw skills string are
the empty string and the three sub-record lists are empty, with no
residue of the discarded record. -/
theorem reset_from_full_blank (s : SysState) (_h : s.mode = Mode.FULL) :
    (step s Event.backToForm).portfolioData = none
      ∧ (step s Event.backToForm).mode = Mode.EDITING
      ∧ (step s Event.backToForm).draft = initialFormData
      ∧ (step s Event.backToForm).draft.dname = ""
      ∧ (step s Event.backToForm).draft.title = ""
      ∧ (step s Event.backToForm).draft.email = ""
      ∧ (step s Event.backToForm).draft.phone = ""
      ∧ (step s Event.backToForm).draft.location = ""
      ∧ (step s Event.backToForm).draft.bio = ""
      ∧ (step s Event.backToForm).draft.profilePicture = ""
      ∧ (step s Event.backToForm).draft.linkedin = ""
      ∧ (step s Event.backToForm).draft.github = ""
      ∧ (step s Event.backToForm).draft.website = ""
      ∧ (step s Event.backToForm).draft.twitter = ""
      ∧ (step s Event.backToForm).draft.skills = []
      ∧ (step s Event.backToForm).draft.experience = []
      ∧ (step s Event.backToForm).draft.education = []
      ∧ (step s Event.backToForm).draft.projects = [] :=
  ⟨rfl, rfl, rfl, rfl, rfl, rfl, rfl, rfl, rfl, rfl, rfl, rfl, rfl, rfl,
    rfl, rfl, rfl, rfl⟩

/-- Witness for C9: resetting from the concrete FULL state leaves no
record and the blank draft. -/
theorem reset_from_full_blank_witness :
    sampleFullState.mode = Mode.FULL
      ∧ (step sampleFullState Event.backToForm).draft = initialFormData
      ∧ (step sampleFullState Event.backToForm).portfolioData = none :=
  ⟨rfl, (reset_from_full_blank sampleFullState rfl).2.2.1,
    (reset_from_full_blank sampleFullState rfl).1⟩

end Portfolio
